import Mathlib

/-!
Verification development for the TRC motion-capture importer
(`io_import_trc.py`).  The Python source is shallowly embedded below:

* a CSV field is a `Token`: the raw text together with the outcome of
  Python's `float(...)` and `int(...)` conversions on it (conversion
  failure, i.e. `ValueError`, is `none`);
* a file already split by the `csv.reader` into rows of fields is a
  `List Row`;
* Python's insertion-ordered `dict` is an association list with the
  update-in-place / append-at-end semantics of `dict` assignment;
* exceptions (`StopIteration`, `ValueError`, `IndexError`,
  `AssertionError`) are the error cases of `Except TrcError`;
* Python floats are modelled as rationals.
-/

/-- A single tab-separated field as seen by the Python code: its raw string
together with the results of `float(field)` and `int(field)` (`none` models
a `ValueError` from the conversion). -/
structure Token where
  s : String
  asFloat : Option ℚ
  asInt : Option ℤ
deriving DecidableEq, Repr

/-- One row of the CSV file (one line, already split on tabs). -/
abbrev Row := List Token

/-- A parsed 3D sample, `mathutils.Vector((x, y, z))` in the source. -/
abbrev Point := ℚ × ℚ × ℚ

/-- The marker dictionary: Python's insertion-ordered `dict` mapping marker
name to the list of per-frame samples (`None` = absent sample). -/
abbrev Markers := List (String × List (Option Point))

/-- The exceptions the parser can raise. -/
inductive TrcError
  | stopIteration
  | valueError
  | indexError
  | assertionError
deriving DecidableEq, Repr

/-- Python `d[k]` lookup (as an `Option`): first entry with the given key. -/
def dictGet? : Markers → String → Option (List (Option Point))
  | [], _ => none
  | p :: d, k => if p.1 = k then some p.2 else dictGet? d k

/-- Python `d[k] = v`: replace the value of an existing key in place,
otherwise append a new entry at the end (insertion order preserved). -/
def dictSet : Markers → String → List (Option Point) → Markers
  | [], k, v => [(k, v)]
  | p :: d, k, v => if p.1 = k then (k, v) :: d else p :: dictSet d k v

/-- Python `d[k].append(x)`: mutate the list stored at key `k`. -/
def dictAppend : Markers → String → Option Point → Markers
  | [], _, _ => []
  | p :: d, k, x => if p.1 = k then (p.1, p.2 ++ [x]) :: d else p :: dictAppend d k x

/-- The slice `row[2:-1]` used for both the marker-name row and every data
row (drop the leading frame-number and time fields and the trailing field). -/
def trim (l : List Token) : List Token :=
  (l.drop 2).dropLast

/-- Elements at indices 0, 3, 6, … of a list: the comprehension
`[nl[i] for i in range(len(nl)) if i % 3 == 0]` from the source. -/
def everyThird : List Token → List Token
  | [] => []
  | [a] => [a]
  | [a, _] => [a]
  | a :: _ :: _ :: rest => a :: everyThird rest

/-- The marker names extracted from the marker-name row. -/
def namesFrom (nameRow : Row) : List String :=
  (everyThird (trim nameRow)).map Token.s

/-- Python `md[i]` followed by `float(...)`: an out-of-range index raises
`IndexError`, a failed conversion raises `ValueError`. -/
def pyFloatAt (md : Row) (i : ℕ) : Except TrcError ℚ :=
  match md.get? i with
  | none => .error .indexError
  | some t =>
    match t.asFloat with
    | none => .error .valueError
    | some q => .ok q

/-- Python `md[i]` followed by `int(...)`. -/
def pyIntAt (md : Row) (i : ℕ) : Except TrcError ℤ :=
  match md.get? i with
  | none => .error .indexError
  | some t =>
    match t.asInt with
    | none => .error .valueError
    | some n => .ok n

/-- Python `md[i]` used as a plain string (the `units` field). -/
def pyStrAt (md : Row) (i : ℕ) : Except TrcError String :=
  match md.get? i with
  | none => .error .indexError
  | some t => .ok t.s

/-- The eight header fields parsed from line 3 of the file. -/
structure THeader where
  data_rate : ℚ
  camera_rate : ℚ
  num_frames : ℤ
  num_markers : ℤ
  units : String
  orig_data_rate : ℚ
  orig_data_start : ℤ
  orig_num_frames : ℤ
deriving DecidableEq, Repr

/-- Header parsing, in the exact evaluation order of the source
(`float(md[0])`, `float(md[1])`, `int(md[2])`, `int(md[3])`, `md[4]`,
`float(md[5])`, `int(md[6])`, `int(md[7])`). -/
def parseHeader (md : Row) : Except TrcError THeader := do
  let data_rate ← pyFloatAt md 0
  let camera_rate ← pyFloatAt md 1
  let num_frames ← pyIntAt md 2
  let num_markers ← pyIntAt md 3
  let units ← pyStrAt md 4
  let orig_data_rate ← pyFloatAt md 5
  let orig_data_start ← pyIntAt md 6
  let orig_num_frames ← pyIntAt md 7
  pure ⟨data_rate, camera_rate, num_frames, num_markers, units,
    orig_data_rate, orig_data_start, orig_num_frames⟩

/-- The `try` block of the data loop on one three-field slice `co`:
`x = float(co[0]); y = float(co[1]); z = float(co[2])`.  Subscripting an
out-of-range index raises `IndexError`, which the surrounding
`except ValueError` does NOT catch; a failed `float` conversion raises
`ValueError`, which is caught and recorded as an absent sample (`none`). -/
def readTriple (co : List Token) : Except TrcError (Option Point) :=
  match co.get? 0 with
  | none => .error .indexError
  | some t0 =>
    match t0.asFloat with
    | none => .ok none
    | some x =>
      match co.get? 1 with
      | none => .error .indexError
      | some t1 =>
        match t1.asFloat with
        | none => .ok none
        | some y =>
          match co.get? 2 with
          | none => .error .indexError
          | some t2 =>
            match t2.asFloat with
            | none => .ok none
            | some z => .ok (some (x, y, z))

/-- The sample obtained for marker index `i` from a trimmed data row `rt`
(the slice `rt[3*i : 3*i+3]`), on rows where the loop does not raise. -/
def extractSample (rt : List Token) (i : ℕ) : Option Point :=
  match readTriple ((rt.drop (3 * i)).take 3) with
  | .ok s => s
  | .error _ => none

/-- The inner `for marker_name in marker_names` loop of the data section,
computed as the list of per-marker samples of one row; `i` is the current
marker index, the second argument the number of markers still to process. -/
def processRowAux (rt : List Token) : ℕ → ℕ → Except TrcError (List (Option Point))
  | _, 0 => .ok []
  | i, k + 1 =>
    match readTriple ((rt.drop (3 * i)).take 3) with
    | .error e => .error e
    | .ok s =>
      match processRowAux rt (i + 1) k with
      | .error e => .error e
      | .ok rest => .ok (s :: rest)

/-- All `n` marker samples of one trimmed data row. -/
def processRow (n : ℕ) (rt : List Token) : Except TrcError (List (Option Point)) :=
  processRowAux rt 0 n

/-- Appending one row's samples to the marker dictionary, marker by marker
in mapping order (`data.markers[marker_name].append(v)`). -/
def appendRowSamples : List String → List (Option Point) → Markers → Markers
  | [], _, d => d
  | _ :: _, [], d => d
  | n :: ns, s :: ss, d => appendRowSamples ns ss (dictAppend d n s)

/-- The `for line in reader` data loop: for each remaining row take the
slice `line[2:-1]`, assert its length is a multiple of 3, and append one
sample per marker name. -/
def readRows (names : List String) : Markers → List Row → Except TrcError Markers
  | d, [] => .ok d
  | d, line :: rest =>
    let rt := trim line
    if rt.length % 3 = 0 then
      match processRow names.length rt with
      | .error e => .error e
      | .ok samples => readRows names (appendRowSamples names samples d) rest
    else .error .assertionError

/-- The loop `for mn in marker_names: data.markers[mn] = []`, starting from
the dictionary state `d` (the class-level `TRCData.markers` dict). -/
def initMarkers (d : Markers) : List String → Markers
  | [] => d
  | n :: ns => initMarkers (dictSet d n []) ns

/-- The `TRCData` record returned by the parser.  In the Python source
`markers` is a CLASS-level attribute (a single dict shared by every
instance); the other fields are overwritten per parse. -/
structure TRCData where
  markers : Markers
  data_rate : ℚ
  camera_rate : ℚ
  num_frames : ℤ
  num_markers : ℤ
  units : String
  orig_data_rate : ℚ
  orig_data_start : ℤ
  orig_num_frames : ℤ
deriving DecidableEq, Repr

/-- The parser `read_trc`.  `classMarkers` is the state of the class-level
dict `TRCData.markers` at the start of the call (an empty dict in a fresh
Python process; whatever an earlier call left behind otherwise).  The file
is consumed row by row exactly as the `csv.reader` iterator does: two
dropped rows, the header row (all eight conversions evaluated before the
next read), the marker-name row, two more dropped rows, then the data loop.
Running past the end of the iterator raises `StopIteration`. -/
def read_trc (classMarkers : Markers) : List Row → Except TrcError TRCData
  | _ :: _ :: md :: rest => do
    let h ← parseHeader md
    match rest with
    | nameRow :: rest2 =>
      let names := namesFrom nameRow
      let m0 := initMarkers classMarkers names
      match rest2 with
      | _ :: _ :: dataRows => do
        let fm ← readRows names m0 dataRows
        pure { markers := fm, data_rate := h.data_rate,
               camera_rate := h.camera_rate, num_frames := h.num_frames,
               num_markers := h.num_markers, units := h.units,
               orig_data_rate := h.orig_data_rate,
               orig_data_start := h.orig_data_start,
               orig_num_frames := h.orig_num_frames }
      | _ => .error .stopIteration
    | [] => .error .stopIteration
  | _ => .error .stopIteration

/-- `read_trc` together with its file-handle effect.  The source opens the
file at entry and calls `file.close()` only on the straight-line path just
before `return data`; there is no `try`/`finally`, so any exception
propagates past the `close()` call.  The boolean records whether
`file.close()` was executed before the function exited. -/
def read_trc_run (classMarkers : Markers) (file : List Row) :
    Except TrcError TRCData × Bool :=
  match read_trc classMarkers file with
  | .ok d => (.ok d, true)
  | .error e => (.error e, false)

/-- The marker dictionary of a parse result (empty on a failed parse). -/
def tracksOf : Except TrcError TRCData → Markers
  | .ok d => d.markers
  | .error _ => []

/-- Two successive `read_trc` calls in one Python process: the class-level
dict `TRCData.markers` is created once when the class statement executes
and is aliased (never rebound) by every instance, so the second call starts
from the dictionary state the first call left behind. -/
def runTwice (fileA fileB : List Row) : Except TrcError TRCData :=
  match read_trc [] fileA with
  | .ok dA => read_trc dA.markers fileB
  | .error e => .error e

/-- The fixed mm-to-Blender-unit conversion factor from the source. -/
def SCALE : ℚ := 1 / 1000

/-- The five animation channels created for one marker: X/Y/Z location
curves and the `hide` / `hide_render` visibility curves, each a list of
keyframes `(time, value)` in creation order. -/
structure FCurves where
  x : List (ℚ × ℚ)
  y : List (ℚ × ℚ)
  z : List (ℚ × ℚ)
  h : List (ℚ × ℚ)
  r : List (ℚ × ℚ)
deriving DecidableEq, Repr

/-- The keyframe-setting loop of `import_trc` for one marker track:
`itt` is `index_to_time = fps / camera_rate`, `i` the current frame index.
A present sample writes scaled X/Y/Z keyframes and visibility value 0; an
absent sample writes only visibility value 1.  (The source preallocates
the keyframe arrays and fills them by running indices `keyframe_index` and
`index`; filling in increasing index order is building these lists.) -/
def matSamples (itt : ℚ) : ℕ → List (Option Point) → FCurves
  | _, [] => ⟨[], [], [], [], []⟩
  | i, v :: rest =>
    let fc := matSamples itt (i + 1) rest
    let t : ℚ := (i : ℚ) * itt
    match v with
    | some p =>
      ⟨(t, p.1 * SCALE) :: fc.x, (t, p.2.1 * SCALE) :: fc.y,
       (t, p.2.2 * SCALE) :: fc.z, (t, 0) :: fc.h, (t, 0) :: fc.r⟩
    | none => ⟨fc.x, fc.y, fc.z, (t, 1) :: fc.h, (t, 1) :: fc.r⟩

/-- Materialization of one marker track at host playback rate `fps`
(Blender's `bpy.context.scene.render.fps`) and capture rate `camera_rate`. -/
def materializeTrack (fps camera_rate : ℚ) (m : List (Option Point)) : FCurves :=
  matSamples (fps / camera_rate) 0 m

/-- One object created in the host scene: the empty named after the marker
together with its animation curves. -/
structure HostObject where
  name : String
  curves : FCurves
deriving DecidableEq, Repr

/-- `import_trc`: parse the file, then (only if parsing succeeded) walk the
marker dictionary creating one host object per entry.  The second component
is the list of objects actually created in the host scene; a parse error
propagates before any host API call, so it leaves that list empty. -/
def import_trc (classMarkers : Markers) (fps : ℚ) (file : List Row) :
    Except TrcError Unit × List HostObject :=
  match read_trc classMarkers file with
  | .error e => (.error e, [])
  | .ok data =>
    (.ok (), data.markers.map fun p =>
      ⟨p.1, materializeTrack fps data.camera_rate p.2⟩)

/-!
Specification-side descriptions of the materializer output (from spec
section 4.2), used to state the refinement claim about `materializeTrack`.
-/

/-- Modelled from the spec: the visibility channel described in section 4.2
(one keyframe per frame at `frame_index * itt`, value 0 when the sample is
present and 1 when it is absent). -/
def specVis (itt : ℚ) : ℕ → List (Option Point) → List (ℚ × ℚ)
  | _, [] => []
  | i, v :: rest =>
    ((i : ℚ) * itt, if v.isSome then 0 else 1) :: specVis itt (i + 1) rest

/-- Modelled from the spec: a location channel described in section 4.2
(one keyframe per PRESENT sample at that frame's timestamp, with value
`coordinate * SCALE`; absent samples contribute no keyframe). -/
def specLoc (sel : Point → ℚ) (itt : ℚ) : ℕ → List (Option Point) → List (ℚ × ℚ)
  | _, [] => []
  | i, none :: rest => specLoc sel itt (i + 1) rest
  | i, some p :: rest =>
    ((i : ℚ) * itt, sel p * SCALE) :: specLoc sel itt (i + 1) rest

/-- The list of indices (counting from `i`) at which the name `q` occurs in
`names`: the column-triplet positions that feed samples to dict key `q`. -/
def occIdxFrom : List String → String → ℕ → List ℕ
  | [], _, _ => []
  | n :: ns, q, i =>
    if n = q then i :: occIdxFrom ns q (i + 1) else occIdxFrom ns q (i + 1)

/-- The occurrence positions of `q` in the marker-name list. -/
def occIdx (names : List String) (q : String) : List ℕ :=
  occIdxFrom names q 0

/-- The samples one data row (with trimmed fields `rt`) contributes to dict
key `q`: one sample per occurrence of `q` among the marker names, each read
from that occurrence's own three columns. -/
def rowContrib (names : List String) (rt : List Token) (q : String) :
    List (Option Point) :=
  (occIdx names q).map fun i => extractSample rt i

/-- The samples the name/sample zip of one row hands to dict key `q`, in
loop order. -/
def selectedSamples : List String → List (Option Point) → String → List (Option Point)
  | [], _, _ => []
  | _ :: _, [], _ => []
  | n :: ns, s :: ss, q =>
    if n = q then s :: selectedSamples ns ss q else selectedSamples ns ss q

/-!
Concrete inputs used in witnesses and counterexamples.
-/

/-- A numeric field (e.g. `"1.5"`): `float` succeeds, `int` fails. -/
def numTok (q : ℚ) : Token := ⟨"1.0", some q, none⟩

/-- An integer field (e.g. `"3"`): both conversions succeed. -/
def intTok (n : ℤ) : Token := ⟨"3", some (n : ℚ), some n⟩

/-- A non-numeric field: both conversions raise `ValueError`. -/
def strTok (s : String) : Token := ⟨s, none, none⟩

/-- A well-formed header row: rates 30 Hz, 3 frames, 2 markers, mm units. -/
def exMd : Row :=
  [numTok 30, numTok 30, intTok 3, intTok 2, strTok "mm",
   numTok 30, intTok 1, intTok 3]

/-- Marker-name row declaring `Hip` and `Knee` (names in columns 2 and 5). -/
def exNamesHK : Row :=
  [strTok "f", strTok "t", strTok "Hip", strTok "", strTok "",
   strTok "Knee", strTok "", strTok "", strTok "end"]

/-- Marker-name row declaring the name `Hip` twice. -/
def exNamesDup : Row :=
  [strTok "f", strTok "t", strTok "Hip", strTok "", strTok "",
   strTok "Hip", strTok "", strTok "", strTok "end"]

/-- A data row with numeric triplets for both markers. -/
def exDataAll : Row :=
  [strTok "1", strTok "0.0", numTok 1, numTok 2, numTok 3,
   numTok 4, numTok 5, numTok 6, strTok "end"]

/-- A data row whose first marker triplet starts with a non-numeric field
while the second marker triplet is fully numeric. -/
def exDataBadHip : Row :=
  [strTok "1", strTok "0.0", strTok "", numTok 2, numTok 3,
   numTok 4, numTok 5, numTok 6, strTok "end"]

/-- A data row whose trimmed slice has length 1 (not a multiple of 3). -/
def exDataBadLen : Row :=
  [strTok "1", strTok "0.0", numTok 1, strTok "end"]

/-- A data row whose trimmed slice has length 3 (a multiple of 3, but fewer
than the 6 columns two markers require). -/
def exDataShort : Row :=
  [strTok "1", strTok "0.0", numTok 1, numTok 2, numTok 3, strTok "end"]

/-- A complete file: header, markers `Hip`/`Knee`, one corrupted data row. -/
def exFileBadHip : List Row :=
  [[], [], exMd, exNamesHK, [], [], exDataBadHip]

/-- A complete file: header, markers `Hip`/`Knee`, one all-numeric row. -/
def exFileAll : List Row :=
  [[], [], exMd, exNamesHK, [], [], exDataAll]

/-- A complete file with the duplicated marker name and one numeric row. -/
def exFileDup : List Row :=
  [[], [], exMd, exNamesDup, [], [], exDataAll]

/-- Marker-name row declaring the single marker `A`. -/
def exNamesA : Row :=
  [strTok "f", strTok "t", strTok "A", strTok "", strTok "", strTok "end"]

/-- Marker-name row declaring the single marker `B`. -/
def exNamesB : Row :=
  [strTok "f", strTok "t", strTok "B", strTok "", strTok "", strTok "end"]

/-- A file declaring only marker `A`, with no data rows. -/
def exFileA : List Row := [[], [], exMd, exNamesA, [], []]

/-- A file declaring only marker `B`, with no data rows. -/
def exFileB : List Row := [[], [], exMd, exNamesB, [], []]

/-!
Dictionary lemmas.
-/

theorem dictGet?_set (d : Markers) (k : String) (v : List (Option Point))
    (q : String) :
    dictGet? (dictSet d k v) q = if k = q then some v else dictGet? d q := by
  induction d with
  | nil => simp [dictSet, dictGet?]
  | cons p d ih =>
    by_cases h1 : p.1 = k
    · subst h1
      by_cases h2 : p.1 = q <;> simp [dictSet, dictGet?, h2]
    · by_cases h2 : p.1 = q
      · have hk : ¬k = q := fun h => h1 (h2.trans h.symm)
        have hqk : ¬q = k := fun h => hk h.symm
        simp [dictSet, dictGet?, h1, h2, hk, hqk]
      · simp [dictSet, dictGet?, h1, h2, ih]

theorem dictGet?_append (d : Markers) (k : String) (x : Option Point)
    (q : String) :
    dictGet? (dictAppend d k x) q =
      (dictGet? d q).map fun tr => if k = q then tr ++ [x] else tr := by
  induction d with
  | nil => simp [dictAppend, dictGet?]
  | cons p d ih =>
    by_cases h1 : p.1 = k
    · subst h1
      by_cases h2 : p.1 = q
      · simp [dictAppend, dictGet?, h2]
      · simp [dictAppend, dictGet?, h2, ih]
    · by_cases h2 : p.1 = q
      · have hk : ¬k = q := fun h => h1 (h2.trans h.symm)
        have hqk : ¬q = k := fun h => hk h.symm
        simp [dictAppend, dictGet?, h1, h2, hk, hqk]
      · simp [dictAppend, dictGet?, h1, h2, ih]

theorem dictAppend_keys (d : Markers) (k : String) (x : Option Point) :
    (dictAppend d k x).map Prod.fst = d.map Prod.fst := by
  induction d with
  | nil => simp [dictAppend]
  | cons p d ih =>
    by_cases hp : p.1 = k <;> simp [dictAppend, hp, ih]

theorem dictSet_keys (d : Markers) (k : String) (v : List (Option Point)) :
    (dictSet d k v).map Prod.fst =
      if k ∈ d.map Prod.fst then d.map Prod.fst else d.map Prod.fst ++ [k] := by
  induction d with
  | nil => simp [dictSet]
  | cons p d ih =>
    by_cases hp : p.1 = k
    · subst hp
      simp [dictSet]
    · have hne : ¬k = p.1 := fun h => hp h.symm
      by_cases hk : k ∈ d.map Prod.fst <;>
        simp [dictSet, hp, ih, hk, hne]

theorem dictGet?_isSome (d : Markers) (q : String) :
    (dictGet? d q).isSome = true ↔ q ∈ d.map Prod.fst := by
  induction d with
  | nil => simp [dictGet?]
  | cons p d ih =>
    by_cases hp : p.1 = q
    · simp [dictGet?, hp]
    · have : ¬q = p.1 := fun h => hp h.symm
      simp [dictGet?, hp, this, ih]

theorem dictGet?_of_mem (d : Markers) (p : String × List (Option Point))
    (hnd : (d.map Prod.fst).Nodup) (hmem : p ∈ d) :
    dictGet? d p.1 = some p.2 := by
  induction d with
  | nil => simp at hmem
  | cons a d ih =>
    simp only [List.map_cons, List.nodup_cons] at hnd
    rcases List.mem_cons.mp hmem with h | h
    · simp [dictGet?, h]
    · have hne : ¬a.1 = p.1 := by
        intro he
        exact hnd.1 (he ▸ List.mem_map_of_mem Prod.fst h)
      simp [dictGet?, hne, ih hnd.2 h]

theorem countP_keys_eq_zero (d : Markers) (q : String)
    (h : q ∉ d.map Prod.fst) :
    d.countP (fun p => p.1 = q) = 0 := by
  induction d with
  | nil => simp
  | cons a d ih =>
    simp only [List.map_cons, List.mem_cons, not_or] at h
    have : ¬a.1 = q := fun he => h.1 he.symm
    simp [List.countP_cons, this, ih h.2]

theorem countP_keys_eq_one (d : Markers) (q : String)
    (hnd : (d.map Prod.fst).Nodup) (hmem : q ∈ d.map Prod.fst) :
    d.countP (fun p => p.1 = q) = 1 := by
  induction d with
  | nil => simp at hmem
  | cons a d ih =>
    simp only [List.map_cons, List.nodup_cons] at hnd
    by_cases ha : a.1 = q
    · have hq : q ∉ d.map Prod.fst := ha ▸ hnd.1
      simp [List.countP_cons, ha, countP_keys_eq_zero d q hq]
    · have hq : q ∈ d.map Prod.fst := by
        rcases List.mem_cons.mp hmem with h | h
        · exact absurd h.symm ha
        · exact h
      simp [List.countP_cons, ha, ih hnd.2 hq]

/-!
Row-processing lemmas.
-/

theorem readTriple_ok_of_three (co : List Token) (h : co.length = 3) :
    ∃ s, readTriple co = .ok s := by
  match co, h with
  | [a, b, c], _ =>
    simp only [readTriple, List.get?]
    cases a.asFloat with
    | none => exact ⟨none, rfl⟩
    | some x =>
      cases b.asFloat with
      | none => exact ⟨none, rfl⟩
      | some y =>
        cases c.asFloat with
        | none => exact ⟨none, rfl⟩
        | some z => exact ⟨some (x, y, z), rfl⟩

theorem readTriple_nonNumeric (co : List Token) (h : co.length = 3)
    (hbad : ∃ t ∈ co, t.asFloat = none) :
    readTriple co = .ok none := by
  match co, h with
  | [a, b, c], _ =>
    simp only [readTriple, List.get?]
    rcases hbad with ⟨t, hmem, hnone⟩
    rcases List.mem_cons.mp hmem with h | h
    · subst h; simp [hnone]
    rcases List.mem_cons.mp h with h | h
    · subst h
      cases a.asFloat <;> simp [hnone]
    rcases List.mem_cons.mp h with h | h
    · subst h
      cases a.asFloat <;> cases b.asFloat <;> simp [hnone]
    · simp at h

theorem readTriple_numeric (co : List Token) (h : co.length = 3)
    (hnum : ∀ t ∈ co, t.asFloat.isSome = true) :
    ∃ p, readTriple co = .ok (some p) := by
  match co, h with
  | [a, b, c], _ =>
    have ha := hnum a (by simp)
    have hb := hnum b (by simp)
    have hc := hnum c (by simp)
    rcases Option.isSome_iff_exists.mp ha with ⟨x, hx⟩
    rcases Option.isSome_iff_exists.mp hb with ⟨y, hy⟩
    rcases Option.isSome_iff_exists.mp hc with ⟨z, hz⟩
    exact ⟨(x, y, z), by simp [readTriple, List.get?, hx, hy, hz]⟩

theorem processRowAux_length (rt : List Token) (k : ℕ) :
    ∀ i ss, processRowAux rt i k = .ok ss → ss.length = k := by
  induction k with
  | zero =>
    intro i ss h
    simp only [processRowAux] at h
    cases h
    rfl
  | succ k ih =>
    intro i ss h
    simp only [processRowAux] at h
    cases ht : readTriple ((rt.drop (3 * i)).take 3) with
    | error e => rw [ht] at h; cases h
    | ok s =>
      rw [ht] at h
      cases hr : processRowAux rt (i + 1) k with
      | error e => rw [hr] at h; cases h
      | ok rest =>
        rw [hr] at h
        cases h
        simp [ih (i + 1) rest hr]

theorem processRowAux_get (rt : List Token) (k : ℕ) :
    ∀ i ss, processRowAux rt i k = .ok ss →
      ∀ j, j < k → ss.get? j = some (extractSample rt (i + j)) := by
  induction k with
  | zero =>
    intro i ss _ j hj
    omega
  | succ k ih =>
    intro i ss h j hj
    simp only [processRowAux] at h
    cases ht : readTriple ((rt.drop (3 * i)).take 3) with
    | error e => rw [ht] at h; cases h
    | ok s =>
      rw [ht] at h
      cases hr : processRowAux rt (i + 1) k with
      | error e => rw [hr] at h; cases h
      | ok rest =>
        rw [hr] at h
        cases h
        cases j with
        | zero =>
          simp [extractSample, ht]
        | succ j =>
          have := ih (i + 1) rest hr j (by omega)
          simpa [Nat.add_comm, Nat.add_left_comm, Nat.add_assoc] using this

theorem processRowAux_full (rt : List Token) (k : ℕ) :
    ∀ i, 3 * (i + k) ≤ rt.length → ∃ ss, processRowAux rt i k = .ok ss := by
  induction k with
  | zero => exact fun i _ => ⟨[], rfl⟩
  | succ k ih =>
    intro i hlen
    have hfull : ((rt.drop (3 * i)).take 3).length = 3 := by
      simp only [List.length_take, List.length_drop]
      omega
    rcases readTriple_ok_of_three ((rt.drop (3 * i)).take 3) hfull with ⟨s, hs⟩
    rcases ih (i + 1) (by omega) with ⟨rest, hrest⟩
    exact ⟨s :: rest, by simp [processRowAux, hs, hrest]⟩

theorem processRowAux_short (rt : List Token) (k : ℕ)
    (hmod : rt.length % 3 = 0) :
    ∀ i, 3 * i ≤ rt.length → rt.length < 3 * (i + k) →
      processRowAux rt i k = .error .indexError := by
  induction k with
  | zero =>
    intro i hlo hhi
    omega
  | succ k ih =>
    intro i hlo hhi
    by_cases hfits : 3 * i + 3 ≤ rt.length
    · have hfull : ((rt.drop (3 * i)).take 3).length = 3 := by
        simp only [List.length_take, List.length_drop]
        omega
      rcases readTriple_ok_of_three ((rt.drop (3 * i)).take 3) hfull with ⟨s, hs⟩
      have := ih (i + 1) (by omega) (by omega)
      simp [processRowAux, hs, this]
    · have hle : rt.length ≤ 3 * i := by omega
      have hnil : rt.drop (3 * i) = [] := List.drop_eq_nil_of_le hle
      simp [processRowAux, hnil, readTriple]

/-!
Occurrence-index and sample-selection lemmas.
-/

theorem occIdxFrom_length (ns : List String) (q : String) :
    ∀ i, (occIdxFrom ns q i).length = ns.count q := by
  induction ns with
  | nil => intro i; simp [occIdxFrom]
  | cons n ns ih =>
    intro i
    by_cases h : n = q <;>
      simp [occIdxFrom, h, ih, List.count_cons, beq_iff_eq]

theorem occIdxFrom_lt (ns : List String) (q : String) :
    ∀ i j, j ∈ occIdxFrom ns q i → i ≤ j ∧ j < i + ns.length := by
  induction ns with
  | nil => intro i j h; simp [occIdxFrom] at h
  | cons n ns ih =>
    intro i j h
    by_cases hn : n = q
    · simp only [occIdxFrom, if_pos hn, List.mem_cons] at h
      rcases h with h | h
      · subst h; simp
      · have := ih (i + 1) j h
        constructor <;> [omega ; (simp only [List.length_cons]; omega)]
    · simp only [occIdxFrom, if_neg hn] at h
      have := ih (i + 1) j h
      constructor <;> [omega ; (simp only [List.length_cons]; omega)]

theorem occIdxFrom_not_mem (ns : List String) (q : String) (h : q ∉ ns) :
    ∀ i, occIdxFrom ns q i = [] := by
  induction ns with
  | nil => intro i; simp [occIdxFrom]
  | cons n ns ih =>
    intro i
    simp only [List.mem_cons, not_or] at h
    have : ¬n = q := fun he => h.1 he.symm
    simp [occIdxFrom, this, ih h.2]

theorem occIdxFrom_nodup (ns : List String) (hnd : ns.Nodup) :
    ∀ j (hj : j < ns.length) i,
      occIdxFrom ns (ns.get ⟨j, hj⟩) i = [i + j] := by
  induction ns with
  | nil => intro j hj; simp at hj
  | cons n ns ih =>
    intro j hj i
    simp only [List.nodup_cons] at hnd
    cases j with
    | zero =>
      simp [occIdxFrom, List.get, occIdxFrom_not_mem ns n hnd.1]
    | succ j =>
      have hq : (n :: ns).get ⟨j + 1, hj⟩ = ns.get ⟨j, by simpa using hj⟩ := rfl
      rw [hq]
      have hmem : ns.get ⟨j, by simpa using hj⟩ ∈ ns := List.get_mem ns _ _
      have hne : ¬n = ns.get ⟨j, by simpa using hj⟩ := by
        intro he
        exact hnd.1 (he ▸ hmem)
      simp only [occIdxFrom, if_neg hne]
      rw [ih hnd.2 j (by simpa using hj) (i + 1)]
      congr 1
      omega

theorem selectedSamples_eq_occ (g : ℕ → Option Point) (q : String) :
    ∀ (ns : List String) (ss : List (Option Point)) (i0 : ℕ),
      ss.length = ns.length →
      (∀ j, j < ns.length → ss.get? j = some (g (i0 + j))) →
      selectedSamples ns ss q = (occIdxFrom ns q i0).map g := by
  intro ns
  induction ns with
  | nil =>
    intro ss i0 hlen hget
    simp [selectedSamples, occIdxFrom]
  | cons n ns ih =>
    intro ss i0 hlen hget
    cases ss with
    | nil => simp at hlen
    | cons s ss =>
      have hs : s = g i0 := by
        have := hget 0 (by simp)
        simpa using this
      have hrest : ∀ j, j < ns.length → ss.get? j = some (g (i0 + 1 + j)) := by
        intro j hj
        have := hget (j + 1) (by simpa using Nat.succ_lt_succ hj)
        simpa [Nat.add_comm, Nat.add_left_comm, Nat.add_assoc] using this
      have hlen' : ss.length = ns.length := by simpa using hlen
      by_cases hn : n = q
      · simp [selectedSamples, occIdxFrom, hn, hs, ih ss (i0 + 1) hlen' hrest]
      · simp [selectedSamples, occIdxFrom, hn, ih ss (i0 + 1) hlen' hrest]

/-!
Data-loop lemmas.
-/

theorem appendRowSamples_get (q : String) :
    ∀ (ns : List String) (ss : List (Option Point)) (d : Markers),
      dictGet? (appendRowSamples ns ss d) q =
        (dictGet? d q).map fun tr => tr ++ selectedSamples ns ss q := by
  intro ns
  induction ns with
  | nil =>
    intro ss d
    cases h : dictGet? d q <;>
      simp [appendRowSamples, selectedSamples, h]
  | cons n ns ih =>
    intro ss d
    cases ss with
    | nil =>
      cases h : dictGet? d q <;>
        simp [appendRowSamples, selectedSamples, h]
    | cons s ss =>
      rw [show appendRowSamples (n :: ns) (s :: ss) d
            = appendRowSamples ns ss (dictAppend d n s) from rfl]
      rw [ih ss (dictAppend d n s), dictGet?_append]
      by_cases hn : n = q
      · cases h : dictGet? d q <;> simp [selectedSamples, hn, h]
      · cases h : dictGet? d q <;> simp [selectedSamples, hn, h]

theorem appendRowSamples_keys :
    ∀ (ns : List String) (ss : List (Option Point)) (d : Markers),
      (appendRowSamples ns ss d).map Prod.fst = d.map Prod.fst := by
  intro ns
  induction ns with
  | nil => intro ss d; rfl
  | cons n ns ih =>
    intro ss d
    cases ss with
    | nil => rfl
    | cons s ss =>
      rw [show appendRowSamples (n :: ns) (s :: ss) d
            = appendRowSamples ns ss (dictAppend d n s) from rfl]
      rw [ih ss (dictAppend d n s), dictAppend_keys]

theorem readRows_get (names : List String) (q : String) :
    ∀ (rows : List Row) (d d' : Markers),
      readRows names d rows = .ok d' →
      dictGet? d' q = (dictGet? d q).map fun tr =>
        tr ++ (rows.map fun l => rowContrib names (trim l) q).flatten := by
  intro rows
  induction rows with
  | nil =>
    intro d d' h
    simp only [readRows] at h
    cases h
    cases hd : dictGet? d q <;> simp [hd]
  | cons line rest ih =>
    intro d d' h
    simp only [readRows] at h
    by_cases hmod : (trim line).length % 3 = 0
    · rw [if_pos hmod] at h
      cases hp : processRow names.length (trim line) with
      | error e => rw [hp] at h; cases h
      | ok samples =>
        rw [hp] at h
        have hlen : samples.length = names.length :=
          processRowAux_length (trim line) names.length 0 samples hp
        have hget : ∀ j, j < names.length →
            samples.get? j = some (extractSample (trim line) (0 + j)) :=
          processRowAux_get (trim line) names.length 0 samples hp
        have hsel : selectedSamples names samples q
            = (occIdxFrom names q 0).map (extractSample (trim line)) :=
          selectedSamples_eq_occ (extractSample (trim line)) q names samples 0
            hlen hget
        rw [ih (appendRowSamples names samples d) d' h,
          appendRowSamples_get q names samples d, hsel]
        cases hd : dictGet? d q <;>
          simp [hd, rowContrib, occIdx, List.append_assoc]
    · rw [if_neg hmod] at h
      cases h

theorem readRows_keys (names : List String) :
    ∀ (rows : List Row) (d d' : Markers),
      readRows names d rows = .ok d' →
      d'.map Prod.fst = d.map Prod.fst := by
  intro rows
  induction rows with
  | nil =>
    intro d d' h
    simp only [readRows] at h
    cases h
    rfl
  | cons line rest ih =>
    intro d d' h
    simp only [readRows] at h
    by_cases hmod : (trim line).length % 3 = 0
    · rw [if_pos hmod] at h
      cases hp : processRow names.length (trim line) with
      | error e => rw [hp] at h; cases h
      | ok samples =>
        rw [hp] at h
        rw [ih (appendRowSamples names samples d) d' h,
          appendRowSamples_keys names samples d]
    · rw [if_neg hmod] at h
      cases h

theorem readRows_stepOk (names : List String) (line : Row) (rest : List Row)
    (d : Markers) (samples : List (Option Point))
    (hmod : (trim line).length % 3 = 0)
    (hp : processRow names.length (trim line) = .ok samples) :
    readRows names d (line :: rest)
      = readRows names (appendRowSamples names samples d) rest := by
  simp [readRows, hmod, hp]

theorem readRows_firstBad (names : List String) (bad : Row)
    (suffix : List Row) (hbad : ¬(trim bad).length % 3 = 0) :
    ∀ (pre : List Row),
      (∀ line ∈ pre, (trim line).length % 3 = 0 ∧
        (processRow names.length (trim line)).isOk = true) →
      ∀ d, readRows names d (pre ++ bad :: suffix) = .error .assertionError := by
  intro pre
  induction pre with
  | nil =>
    intro _ d
    simp [readRows, hbad]
  | cons line pre ih =>
    intro hpre d
    have hline := hpre line (by simp)
    cases hp : processRow names.length (trim line) with
    | error e => rw [hp] at hline; simp [Except.isOk, Except.toBool] at hline
    | ok samples =>
      rw [List.cons_append,
        readRows_stepOk names line (pre ++ bad :: suffix) d samples hline.1 hp]
      exact ih (fun l hl => hpre l (by simp [hl])) _

theorem readRows_firstShort (names : List String) (short : Row)
    (suffix : List Row) (hmod : (trim short).length % 3 = 0)
    (hshort : (trim short).length < 3 * names.length) :
    ∀ (pre : List Row),
      (∀ line ∈ pre, (trim line).length % 3 = 0 ∧
        (processRow names.length (trim line)).isOk = true) →
      ∀ d, readRows names d (pre ++ short :: suffix) = .error .indexError := by
  intro pre
  induction pre with
  | nil =>
    intro _ d
    have hrow : processRow names.length (trim short) = .error .indexError :=
      processRowAux_short (trim short) names.length hmod 0 (by omega)
        (by omega)
    simp [readRows, hmod, hrow]
  | cons line pre ih =>
    intro hpre d
    have hline := hpre line (by simp)
    cases hp : processRow names.length (trim line) with
    | error e => rw [hp] at hline; simp [Except.isOk, Except.toBool] at hline
    | ok samples =>
      rw [List.cons_append,
        readRows_stepOk names line (pre ++ short :: suffix) d samples hline.1 hp]
      exact ih (fun l hl => hpre l (by simp [hl])) _

/-!
Marker-initialization lemmas.
-/

theorem initMarkers_get (q : String) :
    ∀ (ns : List String) (d : Markers),
      dictGet? (initMarkers d ns) q =
        if q ∈ ns then some [] else dictGet? d q := by
  intro ns
  induction ns with
  | nil => intro d; simp [initMarkers]
  | cons n ns ih =>
    intro d
    rw [show initMarkers d (n :: ns) = initMarkers (dictSet d n []) ns from rfl,
      ih (dictSet d n [])]
    by_cases hq : q ∈ ns
    · simp [hq]
    · rw [if_neg hq, dictGet?_set]
      by_cases hn : n = q
      · simp [hn]
      · have : ¬q ∈ n :: ns := by
          simp only [List.mem_cons, not_or]
          exact ⟨fun h => hn h.symm, hq⟩
        simp [hn, this]

theorem initMarkers_keysNodup :
    ∀ (ns : List String) (d : Markers),
      (d.map Prod.fst).Nodup → ((initMarkers d ns).map Prod.fst).Nodup := by
  intro ns
  induction ns with
  | nil => intro d h; exact h
  | cons n ns ih =>
    intro d h
    rw [show initMarkers d (n :: ns) = initMarkers (dictSet d n []) ns from rfl]
    apply ih
    rw [dictSet_keys]
    by_cases hn : n ∈ d.map Prod.fst
    · simpa [hn] using h
    · simp only [if_neg hn]
      simp [List.nodup_append, h, hn]

/-!
Lemmas connecting `read_trc` to the data loop.
-/

theorem read_trc_ok_markers (cm : Markers) (r0 r1 md nr r4 r5 : Row)
    (rows : List Row) (d : TRCData)
    (h : read_trc cm (r0 :: r1 :: md :: nr :: r4 :: r5 :: rows) = .ok d) :
    readRows (namesFrom nr) (initMarkers cm (namesFrom nr)) rows
      = .ok d.markers := by
  simp only [read_trc] at h
  cases hh : parseHeader md with
  | error e =>
    rw [hh] at h
    simp only [Bind.bind, Except.bind] at h
    exact Except.noConfusion h
  | ok hd =>
    rw [hh] at h
    simp only [Bind.bind, Except.bind] at h
    cases hr : readRows (namesFrom nr) (initMarkers cm (namesFrom nr)) rows with
    | error e =>
      rw [hr] at h
      simp only [Functor.map, Except.map] at h
      exact Except.noConfusion h
    | ok fm =>
      rw [hr] at h
      simp only [Functor.map, Except.map, pure, Except.pure, Except.ok.injEq] at h
      rw [← h]

theorem read_trc_error_of_readRows (cm : Markers) (r0 r1 md nr r4 r5 : Row)
    (rows : List Row) (hd : THeader) (e : TrcError)
    (hh : parseHeader md = .ok hd)
    (hr : readRows (namesFrom nr) (initMarkers cm (namesFrom nr)) rows
      = .error e) :
    read_trc cm (r0 :: r1 :: md :: nr :: r4 :: r5 :: rows) = .error e := by
  simp only [read_trc, hh, Bind.bind, Except.bind, hr, Functor.map, Except.map]

theorem flatten_map_singleton {α β : Type} (l : List α) (g : α → β) :
    (l.map fun x => [g x]).flatten = l.map g := by
  induction l with
  | nil => rfl
  | cons a l ih => simp [ih]

theorem map_sum_const {α : Type} (k : ℕ) :
    ∀ (l : List α) (g : α → ℕ), (∀ x ∈ l, g x = k) →
      (l.map g).sum = k * l.length := by
  intro l
  induction l with
  | nil => intro g _; simp
  | cons a l ih =>
    intro g hg
    have ha := hg a (by simp)
    have ht := ih g fun x hx => hg x (by simp [hx])
    simp only [List.map_cons, List.sum_cons, List.length_cons, ha, ht]
    ring

theorem read_trc_fresh_track (r0 r1 md nr r4 r5 : Row) (rows : List Row)
    (d : TRCData)
    (h : read_trc [] (r0 :: r1 :: md :: nr :: r4 :: r5 :: rows) = .ok d)
    (q : String) :
    dictGet? d.markers q =
      if q ∈ namesFrom nr then
        some ((rows.map fun l => rowContrib (namesFrom nr) (trim l) q).flatten)
      else none := by
  have hm := read_trc_ok_markers [] r0 r1 md nr r4 r5 rows d h
  rw [readRows_get (namesFrom nr) q rows _ _ hm, initMarkers_get]
  by_cases hq : q ∈ namesFrom nr <;> simp [hq, dictGet?]

theorem read_trc_fresh_keysNodup (r0 r1 md nr r4 r5 : Row) (rows : List Row)
    (d : TRCData)
    (h : read_trc [] (r0 :: r1 :: md :: nr :: r4 :: r5 :: rows) = .ok d) :
    (d.markers.map Prod.fst).Nodup := by
  have hm := read_trc_ok_markers [] r0 r1 md nr r4 r5 rows d h
  rw [readRows_keys (namesFrom nr) rows _ _ hm]
  exact initMarkers_keysNodup (namesFrom nr) [] (by simp)

theorem read_trc_fresh_nodup_track (r0 r1 md nr r4 r5 : Row)
    (rows : List Row) (d : TRCData)
    (hnd : (namesFrom nr).Nodup)
    (h : read_trc [] (r0 :: r1 :: md :: nr :: r4 :: r5 :: rows) = .ok d)
    (i : ℕ) (hi : i < (namesFrom nr).length) :
    dictGet? d.markers ((namesFrom nr).get ⟨i, hi⟩)
      = some (rows.map fun l => extractSample (trim l) i) := by
  rw [read_trc_fresh_track r0 r1 md nr r4 r5 rows d h]
  rw [if_pos (List.get_mem (namesFrom nr) i hi)]
  have hc : ∀ l : Row,
      rowContrib (namesFrom nr) (trim l) ((namesFrom nr).get ⟨i, hi⟩)
        = [extractSample (trim l) i] := by
    intro l
    unfold rowContrib occIdx
    rw [occIdxFrom_nodup (namesFrom nr) hnd i hi 0]
    simp
  simp only [hc]
  rw [flatten_map_singleton]

/-!
Claim theorems.
-/

/-- Claim C4: every data row's trimmed field slice (`row[2:-1]`) must have
length an exact multiple of 3; on the first row violating this, `read_trc`
deterministically raises the fatal assertion (`StructuralError`) and
the import aborts, regardless of the content of later rows (`suffix` is
universally quantified and unconstrained). -/
theorem read_trc_assertion_on_first_bad_row
    (cm : Markers) (r0 r1 md nr r4 r5 bad : Row) (pre suffix : List Row)
    (hmd : ∃ hd, parseHeader md = .ok hd)
    (hpre : ∀ line ∈ pre, (trim line).length % 3 = 0 ∧
      (processRow (namesFrom nr).length (trim line)).isOk = true)
    (hbad : ¬(trim bad).length % 3 = 0) :
    read_trc cm (r0 :: r1 :: md :: nr :: r4 :: r5 :: (pre ++ bad :: suffix))
      = .error .assertionError := by
  rcases hmd with ⟨hd, hh⟩
  exact read_trc_error_of_readRows cm r0 r1 md nr r4 r5 _ hd _ hh
    (readRows_firstBad (namesFrom nr) bad suffix hbad pre hpre _)

/-- Witness for C4: the concrete file whose single data row trims to one
field raises the assertion. -/
theorem read_trc_assertion_on_first_bad_row_witness :
    (∃ hd, parseHeader exMd = .ok hd) ∧
    (¬(trim exDataBadLen).length % 3 = 0) ∧
    read_trc [] ([] :: [] :: exMd :: exNamesHK :: [] :: [] ::
        ([] ++ exDataBadLen :: [])) = .error .assertionError := by
  refine ⟨⟨⟨30, 30, 3, 2, "mm", 30, 1, 3⟩, rfl⟩, by decide, ?_⟩
  exact read_trc_assertion_on_first_bad_row [] [] [] exMd exNamesHK [] []
    exDataBadLen [] [] ⟨⟨30, 30, 3, 2, "mm", 30, 1, 3⟩, rfl⟩
    (by decide) (by decide)

/-- Claim C9: a data row whose trimmed slice has length a multiple of 3 but
smaller than 3 times the number of marker names makes `read_trc` fail with
an uncaught `IndexError` (raised at the first marker whose three-field
slice is empty); missing columns are NOT recorded as absent samples. -/
theorem read_trc_indexError_on_short_row
    (cm : Markers) (r0 r1 md nr r4 r5 short : Row) (pre suffix : List Row)
    (hmd : ∃ hd, parseHeader md = .ok hd)
    (hpre : ∀ line ∈ pre, (trim line).length % 3 = 0 ∧
      (processRow (namesFrom nr).length (trim line)).isOk = true)
    (hmod : (trim short).length % 3 = 0)
    (hshort : (trim short).length < 3 * (namesFrom nr).length) :
    read_trc cm (r0 :: r1 :: md :: nr :: r4 :: r5 :: (pre ++ short :: suffix))
      = .error .indexError := by
  rcases hmd with ⟨hd, hh⟩
  exact read_trc_error_of_readRows cm r0 r1 md nr r4 r5 _ hd _ hh
    (readRows_firstShort (namesFrom nr) short suffix hmod hshort pre hpre _)

/-- Witness for C9: with two declared markers, a data row trimming to only
three fields raises `IndexError`. -/
theorem read_trc_indexError_on_short_row_witness :
    (∃ hd, parseHeader exMd = .ok hd) ∧
    (trim exDataShort).length % 3 = 0 ∧
    (trim exDataShort).length < 3 * (namesFrom exNamesHK).length ∧
    read_trc [] ([] :: [] :: exMd :: exNamesHK :: [] :: [] ::
        ([] ++ exDataShort :: [])) = .error .indexError := by
  refine ⟨⟨⟨30, 30, 3, 2, "mm", 30, 1, 3⟩, rfl⟩, by decide, by decide, ?_⟩
  exact read_trc_indexError_on_short_row [] [] [] exMd exNamesHK [] []
    exDataShort [] [] ⟨⟨30, 30, 3, 2, "mm", 30, 1, 3⟩, rfl⟩
    (by decide) (by decide) (by decide)

/-- Claim C6: `import_trc` parses the whole file before touching the host
API, so whenever the parse fails no object, action, or animation channel
has been created in the host scene. -/
theorem import_trc_no_objects_on_parse_error
    (cm : Markers) (fps : ℚ) (file : List Row) (e : TrcError)
    (h : read_trc cm file = .error e) :
    (import_trc cm fps file).2 = [] := by
  simp [import_trc, h]

/-- Witness for C6: the empty file fails to parse (`StopIteration`) and
the host-object list is empty. -/
theorem import_trc_no_objects_on_parse_error_witness :
    read_trc [] ([] : List Row) = .error .stopIteration ∧
    (import_trc [] 24 ([] : List Row)).2 = [] :=
  ⟨rfl, import_trc_no_objects_on_parse_error [] 24 []
    .stopIteration rfl⟩

/-- Counterexample to claim C3: on the empty file `read_trc` exits with an
exception and the file handle opened at entry has NOT been closed when the
function exits — the release is skipped on every error path, since the
source has no `try`/`finally` around the parse. -/
theorem read_trc_handle_not_closed_on_error :
    (read_trc_run [] ([] : List Row)).2 = false ∧
    (read_trc [] ([] : List Row)) = .error .stopIteration := ⟨rfl, rfl⟩

/-- Claim C3 (amended): the file handle is released exactly on the normal
return path: `file.close()` executes if and only if the parse returns a
dataset; any exception exits `read_trc` with the handle still open. -/
theorem read_trc_handle_closed_iff_ok (cm : Markers) (file : List Row) :
    (read_trc_run cm file).2 = true ↔ ∃ d, read_trc cm file = .ok d := by
  cases h : read_trc cm file with
  | ok d => simp [read_trc_run, h]
  | error e => simp [read_trc_run, h]

/-- Claim C2 fails on the code: `TRCData.markers` is a class-level dict
shared by all instances, so a second invocation of `read_trc` in the same
process inherits the first invocation's marker entries.  Concretely,
parsing a file declaring only marker `A` followed by a file declaring only
marker `B` yields a mapping containing both `A` and `B`, whereas a single
fresh invocation on the second file yields only `B`. -/
theorem read_trc_cross_invocation_leak :
    (tracksOf (runTwice exFileA exFileB)).map Prod.fst = ["A", "B"] ∧
    (tracksOf (read_trc [] exFileB)).map Prod.fst = ["B"] := by decide

/-- Claim C1: on a successful parse with distinct marker names (the data
model requires names unique within a file), a data row in which marker
`j`'s three-field triplet contains a non-numeric token yields an absent
sample for marker `j` at that frame, while every other marker whose triplet
on the same row is fully numeric gets a present sample: one marker's
corruption never changes another marker's sample on the same frame. -/
theorem read_trc_missing_sample_isolated
    (r0 r1 md nr r4 r5 : Row) (dataRows : List Row) (f j : ℕ) (line : Row)
    (hnd : (namesFrom nr).Nodup)
    (hok : (read_trc [] (r0 :: r1 :: md :: nr :: r4 :: r5 :: dataRows)).isOk
      = true)
    (hline : dataRows.get? f = some line)
    (hj : j < (namesFrom nr).length)
    (hjlen : (((trim line).drop (3 * j)).take 3).length = 3)
    (hjbad : ∃ t ∈ ((trim line).drop (3 * j)).take 3, t.asFloat = none) :
    (∃ tr, dictGet? (tracksOf
        (read_trc [] (r0 :: r1 :: md :: nr :: r4 :: r5 :: dataRows)))
        ((namesFrom nr).get ⟨j, hj⟩) = some tr ∧ tr.get? f = some none) ∧
    (∀ i (hi : i < (namesFrom nr).length), i ≠ j →
      (((trim line).drop (3 * i)).take 3).length = 3 →
      (∀ t ∈ ((trim line).drop (3 * i)).take 3, t.asFloat.isSome = true) →
      ∃ tr p, dictGet? (tracksOf
          (read_trc [] (r0 :: r1 :: md :: nr :: r4 :: r5 :: dataRows)))
          ((namesFrom nr).get ⟨i, hi⟩) = some tr ∧ tr.get? f = some (some p)) := by
  obtain ⟨d, hd⟩ : ∃ d,
      read_trc [] (r0 :: r1 :: md :: nr :: r4 :: r5 :: dataRows) = .ok d := by
    cases h : read_trc [] (r0 :: r1 :: md :: nr :: r4 :: r5 :: dataRows) with
    | ok d => exact ⟨d, rfl⟩
    | error e => rw [h] at hok; simp [Except.isOk, Except.toBool] at hok
  simp only [hd, tracksOf]
  constructor
  · refine ⟨dataRows.map (fun l => extractSample (trim l) j), ?_, ?_⟩
    · exact read_trc_fresh_nodup_track r0 r1 md nr r4 r5 dataRows d hnd hd j hj
    · rw [List.get?_map, hline]
      have hnone : extractSample (trim line) j = none := by
        unfold extractSample
        rw [readTriple_nonNumeric _ hjlen hjbad]
      simp [hnone]
  · intro i hi _ hilen hinum
    rcases readTriple_numeric _ hilen hinum with ⟨p, hp⟩
    refine ⟨dataRows.map (fun l => extractSample (trim l) i), p, ?_, ?_⟩
    · exact read_trc_fresh_nodup_track r0 r1 md nr r4 r5 dataRows d hnd hd i hi
    · rw [List.get?_map, hline]
      have hsome : extractSample (trim line) i = some p := by
        unfold extractSample
        rw [hp]
      simp [hsome]

/-- Witness for C1: in the file whose only data row corrupts `Hip`'s first
coordinate, `Hip` (index 0) gets an absent sample and every other marker
with numeric fields (here `Knee`, index 1) gets a present one. -/
theorem read_trc_missing_sample_isolated_witness :
    (namesFrom exNamesHK).Nodup ∧
    (read_trc [] ([] :: [] :: exMd :: exNamesHK :: [] :: [] ::
      [exDataBadHip])).isOk = true ∧
    ((∃ tr, dictGet? (tracksOf
        (read_trc [] ([] :: [] :: exMd :: exNamesHK :: [] :: [] ::
          [exDataBadHip])))
        ((namesFrom exNamesHK).get ⟨0, by decide⟩) = some tr ∧
        tr.get? 0 = some none) ∧
    (∀ i (hi : i < (namesFrom exNamesHK).length), i ≠ 0 →
      (((trim exDataBadHip).drop (3 * i)).take 3).length = 3 →
      (∀ t ∈ ((trim exDataBadHip).drop (3 * i)).take 3,
        t.asFloat.isSome = true) →
      ∃ tr p, dictGet? (tracksOf
          (read_trc [] ([] :: [] :: exMd :: exNamesHK :: [] :: [] ::
            [exDataBadHip])))
          ((namesFrom exNamesHK).get ⟨i, hi⟩) = some tr ∧
          tr.get? 0 = some (some p))) :=
  ⟨by decide, rfl,
    read_trc_missing_sample_isolated [] [] exMd exNamesHK [] []
      [exDataBadHip] 0 0 exDataBadHip (by decide) rfl rfl (by decide)
      (by decide) (by decide)⟩

/-- Counterexample to claim C5: a file whose single data row is fully
numeric for all markers, but whose marker-name row repeats the name `Hip`
twice, parses successfully into a `Hip` track of length 2 although the file
has only 1 data row — so "track length equals the number of data rows" is
not true of every all-numeric input. -/
theorem read_trc_all_numeric_track_too_long :
    (∀ line ∈ ([exDataAll] : List Row), ∀ t ∈ trim line,
      t.asFloat.isSome = true) ∧
    ([exDataAll] : List Row).length = 1 ∧
    (read_trc [] ([] :: [] :: exMd :: exNamesDup :: [] :: [] ::
      [exDataAll])).isOk = true ∧
    (dictGet? (tracksOf (read_trc [] ([] :: [] :: exMd :: exNamesDup ::
      [] :: [] :: [exDataAll]))) "Hip").map List.length = some 2 :=
  ⟨by decide, rfl, rfl, rfl⟩

/-- Claim C5 (amended): for a successfully parsed input with DISTINCT
marker names whose every data row trims to exactly 3·(number of markers)
numeric fields, every produced marker track has length equal to the number
of data rows and contains zero absent entries. -/
theorem read_trc_all_numeric_full_tracks
    (r0 r1 md nr r4 r5 : Row) (dataRows : List Row)
    (hnd : (namesFrom nr).Nodup)
    (hrows : ∀ line ∈ dataRows,
      (trim line).length = 3 * (namesFrom nr).length ∧
      ∀ t ∈ trim line, t.asFloat.isSome = true)
    (hok : (read_trc [] (r0 :: r1 :: md :: nr :: r4 :: r5 :: dataRows)).isOk
      = true) :
    ∀ p ∈ tracksOf (read_trc [] (r0 :: r1 :: md :: nr :: r4 :: r5 :: dataRows)),
      p.2.length = dataRows.length ∧ ∀ s ∈ p.2, s.isSome = true := by
  obtain ⟨d, hd⟩ : ∃ d,
      read_trc [] (r0 :: r1 :: md :: nr :: r4 :: r5 :: dataRows) = .ok d := by
    cases h : read_trc [] (r0 :: r1 :: md :: nr :: r4 :: r5 :: dataRows) with
    | ok d => exact ⟨d, rfl⟩
    | error e => rw [h] at hok; simp [Except.isOk, Except.toBool] at hok
  simp only [hd, tracksOf]
  intro p hp
  have hkeys := read_trc_fresh_keysNodup r0 r1 md nr r4 r5 dataRows d hd
  have hget : dictGet? d.markers p.1 = some p.2 :=
    dictGet?_of_mem d.markers p hkeys hp
  have hmem : p.1 ∈ namesFrom nr := by
    have hft := read_trc_fresh_track r0 r1 md nr r4 r5 dataRows d hd p.1
    by_cases hq : p.1 ∈ namesFrom nr
    · exact hq
    · rw [if_neg hq, hget] at hft
      exact absurd hft (by simp)
  obtain ⟨⟨i, hi⟩, hgeti⟩ := List.mem_iff_get.mp hmem
  have htrack := read_trc_fresh_nodup_track r0 r1 md nr r4 r5 dataRows d
    hnd hd i hi
  rw [hgeti, hget] at htrack
  have hp2 : p.2 = dataRows.map fun l => extractSample (trim l) i :=
    Option.some.inj htrack
  constructor
  · rw [hp2, List.length_map]
  · intro s hs
    rw [hp2] at hs
    rcases List.mem_map.mp hs with ⟨l, hl, hsl⟩
    rcases hrows l hl with ⟨hlen, hnum⟩
    have hseg : (((trim l).drop (3 * i)).take 3).length = 3 := by
      simp only [List.length_take, List.length_drop, hlen]
      omega
    have hsub : ∀ t ∈ ((trim l).drop (3 * i)).take 3,
        t.asFloat.isSome = true := by
      intro t ht
      exact hnum t (List.drop_subset _ _ (List.take_subset _ _ ht))
    rcases readTriple_numeric _ hseg hsub with ⟨pt, hpt⟩
    rw [← hsl]
    unfold extractSample
    rw [hpt]
    rfl

/-- Witness for C5 (amended) on the all-numeric `Hip`/`Knee` file with one
data row. -/
theorem read_trc_all_numeric_full_tracks_witness :
    (namesFrom exNamesHK).Nodup ∧
    (∀ line ∈ ([exDataAll] : List Row),
      (trim line).length = 3 * (namesFrom exNamesHK).length ∧
      ∀ t ∈ trim line, t.asFloat.isSome = true) ∧
    (∀ p ∈ tracksOf (read_trc [] ([] :: [] :: exMd :: exNamesHK :: [] ::
        [] :: [exDataAll])),
      p.2.length = ([exDataAll] : List Row).length ∧
      ∀ s ∈ p.2, s.isSome = true) :=
  ⟨by decide, by decide,
    read_trc_all_numeric_full_tracks [] [] exMd exNamesHK [] [] [exDataAll]
      (by decide) (by decide) rfl⟩

/-- Claim C10: when the marker-name row contains a name `q` a total of
`k > 1` times, `read_trc` creates a single dictionary entry for `q`, and
each data row appends `k` samples to that one track — one per occurrence,
each read from that occurrence's own three columns (`rowContrib`) — so the
track's length is `k` times the number of data rows. -/
theorem read_trc_duplicate_name_single_track
    (r0 r1 md nr r4 r5 : Row) (dataRows : List Row) (q : String)
    (hk : 1 < (namesFrom nr).count q)
    (hok : (read_trc [] (r0 :: r1 :: md :: nr :: r4 :: r5 :: dataRows)).isOk
      = true) :
    (tracksOf (read_trc [] (r0 :: r1 :: md :: nr :: r4 :: r5 ::
      dataRows))).countP (fun p => p.1 = q) = 1 ∧
    dictGet? (tracksOf (read_trc [] (r0 :: r1 :: md :: nr :: r4 :: r5 ::
      dataRows))) q = some ((dataRows.map fun l =>
        rowContrib (namesFrom nr) (trim l) q).flatten) ∧
    (∀ l : Row, (rowContrib (namesFrom nr) (trim l) q).length
      = (namesFrom nr).count q) ∧
    (∀ tr, dictGet? (tracksOf (read_trc [] (r0 :: r1 :: md :: nr :: r4 ::
        r5 :: dataRows))) q = some tr →
      tr.length = (namesFrom nr).count q * dataRows.length) := by
  obtain ⟨d, hd⟩ : ∃ d,
      read_trc [] (r0 :: r1 :: md :: nr :: r4 :: r5 :: dataRows) = .ok d := by
    cases h : read_trc [] (r0 :: r1 :: md :: nr :: r4 :: r5 :: dataRows) with
    | ok d => exact ⟨d, rfl⟩
    | error e => rw [h] at hok; simp [Except.isOk, Except.toBool] at hok
  simp only [hd, tracksOf]
  have hmem : q ∈ namesFrom nr := List.count_pos_iff.mp (by omega)
  have htrack := read_trc_fresh_track r0 r1 md nr r4 r5 dataRows d hd q
  rw [if_pos hmem] at htrack
  have hkeys := read_trc_fresh_keysNodup r0 r1 md nr r4 r5 dataRows d hd
  have hmemkeys : q ∈ d.markers.map Prod.fst :=
    (dictGet?_isSome d.markers q).mp (by rw [htrack]; rfl)
  have hcontrib : ∀ l : Row, (rowContrib (namesFrom nr) (trim l) q).length
      = (namesFrom nr).count q := by
    intro l
    unfold rowContrib occIdx
    rw [List.length_map, occIdxFrom_length]
  refine ⟨countP_keys_eq_one d.markers q hkeys hmemkeys, htrack, hcontrib, ?_⟩
  intro tr htr
  rw [htrack] at htr
  rw [← Option.some.inj htr]
  rw [List.length_flatten, List.map_map]
  exact map_sum_const ((namesFrom nr).count q) dataRows _
    fun l _ => hcontrib l

/-- Witness for C10 on the file repeating `Hip` twice with one data row:
a single entry whose track has 2·1 samples. -/
theorem read_trc_duplicate_name_single_track_witness :
    1 < (namesFrom exNamesDup).count "Hip" ∧
    ((tracksOf (read_trc [] ([] :: [] :: exMd :: exNamesDup :: [] :: [] ::
      [exDataAll]))).countP (fun p => p.1 = "Hip") = 1 ∧
    dictGet? (tracksOf (read_trc [] ([] :: [] :: exMd :: exNamesDup ::
      [] :: [] :: [exDataAll]))) "Hip" = some ((([exDataAll] : List Row).map
        fun l => rowContrib (namesFrom exNamesDup) (trim l) "Hip").flatten) ∧
    (∀ l : Row, (rowContrib (namesFrom exNamesDup) (trim l) "Hip").length
      = (namesFrom exNamesDup).count "Hip") ∧
    (∀ tr, dictGet? (tracksOf (read_trc [] ([] :: [] :: exMd ::
        exNamesDup :: [] :: [] :: [exDataAll]))) "Hip" = some tr →
      tr.length = (namesFrom exNamesDup).count "Hip" *
        ([exDataAll] : List Row).length)) :=
  ⟨by decide,
    read_trc_duplicate_name_single_track [] [] exMd exNamesDup [] []
      [exDataAll] "Hip" (by decide) rfl⟩

/-!
Materializer lemmas.
-/

theorem matSamples_eq (itt : ℚ) :
    ∀ (m : List (Option Point)) (i : ℕ),
      matSamples itt i m =
        ⟨specLoc (fun p => p.1) itt i m, specLoc (fun p => p.2.1) itt i m,
         specLoc (fun p => p.2.2) itt i m, specVis itt i m, specVis itt i m⟩ := by
  intro m
  induction m with
  | nil => intro i; rfl
  | cons v rest ih =>
    intro i
    cases v with
    | none => simp [matSamples, specLoc, specVis, ih (i + 1)]
    | some p => simp [matSamples, specLoc, specVis, ih (i + 1)]

theorem specVis_length (itt : ℚ) :
    ∀ (m : List (Option Point)) (i : ℕ), (specVis itt i m).length = m.length := by
  intro m
  induction m with
  | nil => intro i; rfl
  | cons v rest ih => intro i; simp [specVis, ih (i + 1)]

theorem specLoc_length (sel : Point → ℚ) (itt : ℚ) :
    ∀ (m : List (Option Point)) (i : ℕ),
      (specLoc sel itt i m).length = m.countP (fun s => s.isSome) := by
  intro m
  induction m with
  | nil => intro i; rfl
  | cons v rest ih =>
    intro i
    cases v with
    | none => simp [specLoc, ih (i + 1), List.countP_cons]
    | some p => simp [specLoc, ih (i + 1), List.countP_cons]

theorem specVis_times (itt : ℚ) :
    ∀ (m : List (Option Point)) (i : ℕ),
      (specVis itt i m).map Prod.fst
        = (List.range m.length).map fun k => ((i + k : ℕ) : ℚ) * itt := by
  intro m
  induction m with
  | nil => intro i; rfl
  | cons v rest ih =>
    intro i
    have htail : List.map (fun k => ((i + 1 + k : ℕ) : ℚ) * itt)
        (List.range rest.length)
        = List.map ((fun k => ((i + k : ℕ) : ℚ) * itt) ∘ Nat.succ)
          (List.range rest.length) := by
      apply List.map_congr_left
      intro a _
      simp only [Function.comp_apply]
      push_cast
      ring
    rw [show specVis itt i (v :: rest)
          = (((i : ℕ) : ℚ) * itt, if v.isSome then 0 else 1)
            :: specVis itt (i + 1) rest from rfl,
      List.map_cons, ih (i + 1), List.length_cons, List.range_succ_eq_map,
      List.map_cons, List.map_map, htail]
    norm_num

theorem specVis_chain (itt : ℚ) (hpos : 0 < itt) :
    ∀ (m : List (Option Point)) (i : ℕ),
      List.Chain' (fun a b => a < b) ((specVis itt i m).map Prod.fst) := by
  intro m
  induction m with
  | nil => intro i; simp [specVis]
  | cons v rest ih =>
    intro i
    cases rest with
    | nil => simp [specVis]
    | cons w rest2 =>
      have hh : (specVis itt (i + 1) (w :: rest2)).map Prod.fst
          = (((i + 1 : ℕ) : ℚ) * itt) ::
            ((specVis itt (i + 2) rest2).map Prod.fst) := by
        rw [show specVis itt (i + 1) (w :: rest2)
              = (((i + 1 : ℕ) : ℚ) * itt, if w.isSome then 0 else 1)
                :: specVis itt (i + 2) rest2 from rfl, List.map_cons]
      rw [show specVis itt i (v :: w :: rest2)
            = (((i : ℕ) : ℚ) * itt, if v.isSome then 0 else 1)
              :: specVis itt (i + 1) (w :: rest2) from rfl, List.map_cons,
        hh, List.chain'_cons]
      refine ⟨?_, ?_⟩
      · have hlt : ((i : ℕ) : ℚ) < ((i + 1 : ℕ) : ℚ) := by push_cast; linarith
        exact mul_lt_mul_of_pos_right hlt hpos
      · rw [← hh]
        exact ih (i + 1)

/-- Claim C7: during materialization each sample of a marker track is
timestamped at `frame_index * (host_playback_rate / camera_rate)`, and
(given positive rates — Blender's `render.fps` is an integer ≥ 1) the
timestamps of consecutive frames are strictly increasing. -/
theorem materializeTrack_timestamps (fps cr : ℚ) (m : List (Option Point))
    (hfps : 0 < fps) (hcr : 0 < cr) :
    ((materializeTrack fps cr m).h.map Prod.fst
      = (List.range m.length).map fun k : ℕ => (k : ℚ) * (fps / cr)) ∧
    List.Chain' (fun a b => a < b)
      ((materializeTrack fps cr m).h.map Prod.fst) := by
  have hpos : 0 < fps / cr := div_pos hfps hcr
  have hh : (materializeTrack fps cr m).h = specVis (fps / cr) 0 m := by
    rw [materializeTrack, matSamples_eq]
  constructor
  · rw [hh, specVis_times]
    apply List.map_congr_left
    intro a _
    push_cast
    ring
  · rw [hh]
    exact specVis_chain (fps / cr) hpos m 0

/-- Witness for C7 on a three-frame track at 24 fps over a 30 Hz capture. -/
theorem materializeTrack_timestamps_witness :
    (0 : ℚ) < 24 ∧ (0 : ℚ) < 30 ∧
    ((((materializeTrack 24 30 [some (1, 2, 3), none, some (4, 5, 6)]).h.map
        Prod.fst)
      = (List.range ([some (1, 2, 3), none, some (4, 5, 6)]
          : List (Option Point)).length).map fun k : ℕ => (k : ℚ) * (24 / 30)) ∧
    List.Chain' (fun a b => a < b)
      ((materializeTrack 24 30 [some (1, 2, 3), none, some (4, 5, 6)]).h.map
        Prod.fst)) :=
  ⟨by norm_num, by norm_num,
    materializeTrack_timestamps 24 30 [some (1, 2, 3), none, some (4, 5, 6)]
      (by norm_num) (by norm_num)⟩

/-- Claim C8: the materializer emits, for each present sample, X/Y/Z
keyframes valued `coordinate * SCALE` with both visibility channels 0 at
that sample's timestamp, and for each absent sample only visibility
keyframes valued 1 (no X/Y/Z keyframe); hence the X/Y/Z channels have one
keyframe per present sample and the visibility channels one per frame.
(`specLoc`/`specVis` are the spec-side channel descriptions.) -/
theorem materializeTrack_keyframes (fps cr : ℚ) (m : List (Option Point)) :
    (materializeTrack fps cr m).x = specLoc (fun p => p.1) (fps / cr) 0 m ∧
    (materializeTrack fps cr m).y = specLoc (fun p => p.2.1) (fps / cr) 0 m ∧
    (materializeTrack fps cr m).z = specLoc (fun p => p.2.2) (fps / cr) 0 m ∧
    (materializeTrack fps cr m).h = specVis (fps / cr) 0 m ∧
    (materializeTrack fps cr m).r = specVis (fps / cr) 0 m ∧
    (materializeTrack fps cr m).x.length = m.countP (fun s => s.isSome) ∧
    (materializeTrack fps cr m).y.length = m.countP (fun s => s.isSome) ∧
    (materializeTrack fps cr m).z.length = m.countP (fun s => s.isSome) ∧
    (materializeTrack fps cr m).h.length = m.length ∧
    (materializeTrack fps cr m).r.length = m.length := by
  have he := matSamples_eq (fps / cr) m 0
  rw [materializeTrack, he]
  refine ⟨rfl, rfl, rfl, rfl, rfl, ?_, ?_, ?_, ?_, ?_⟩ <;>
    simp [specLoc_length, specVis_length]
